import Mathlib

/-!
Verification of the haptic glove SDK against its specification.

Shallow embedding of the Python sources:
* bytes are `List Nat` (each element a byte value),
* text is `List Char`,
* Python `float` is modelled as `ℚ` (exact rational arithmetic),
* stateful classes become records with explicit state-passing functions.

Each section names the source file it embeds.
-/

namespace HapticSDK

/- Core marks these rational operations irreducible, which blocks `decide`
on concrete protocol values; the embedding evaluates them freely. -/
attribute [local semireducible] Rat.add Rat.mul Rat.inv Rat.sub

/-! ### Generic helper: substring search

Models Python `bytes.find(sub)` / `str.find(sub)`: index of the first
occurrence of `pat`, or `none`.  For a nonempty pattern this agrees with
CPython (which returns the lowest index). -/

def findSub [DecidableEq α] (pat : List α) : List α → Option Nat
  | [] => if pat = [] then some 0 else none
  | a :: rest =>
    if pat.isPrefixOf (a :: rest) then some 0
    else (findSub pat rest).map (· + 1)

theorem findSub_eq_none [DecidableEq α] (pat : List α) (buf : List α)
    (h : ∀ i, ¬ pat <+: buf.drop i) : findSub pat buf = none := by
  induction buf with
  | nil =>
    have h0 := h 0
    simp only [List.drop_nil] at h0
    have : pat ≠ [] := by
      intro he; exact h0 (he ▸ List.nil_prefix)
    simp [findSub, this]
  | cons a rest ih =>
    have h0 := h 0
    simp only [List.drop] at h0
    have hp : pat.isPrefixOf (a :: rest) = false := by
      rw [Bool.eq_false_iff]
      intro hc
      exact h0 (List.isPrefixOf_iff_prefix.mp hc)
    have ih' : findSub pat rest = none := by
      apply ih
      intro i
      have := h (i + 1)
      simpa using this
    simp [findSub, hp, ih']

theorem findSub_head [DecidableEq α] (pat : List α) (buf : List α)
    (h : pat <+: buf) : findSub pat buf = some 0 := by
  cases buf with
  | nil =>
    have : pat = [] := List.prefix_nil.mp h
    simp [findSub, this]
  | cons a rest =>
    have hp : pat.isPrefixOf (a :: rest) = true := List.isPrefixOf_iff_prefix.mpr h
    simp [findSub, hp]

theorem findSub_eq_some_first [DecidableEq α] (pat : List α) (buf : List α) (k : Nat)
    (hk : pat <+: buf.drop k) (hlt : ∀ i, i < k → ¬ pat <+: buf.drop i) :
    findSub pat buf = some k := by
  induction buf generalizing k with
  | nil =>
    have hpat : pat = [] := List.prefix_nil.mp (by simpa using hk)
    have hk0 : k = 0 := by
      by_contra hne
      exact hlt 0 (Nat.pos_of_ne_zero hne) (by simp [hpat])
    simp [findSub, hpat, hk0]
  | cons a rest ih =>
    cases k with
    | zero =>
      exact findSub_head pat (a :: rest) (by simpa using hk)
    | succ k' =>
      have h0 := hlt 0 (Nat.succ_pos k')
      simp only [List.drop] at h0
      have hp : pat.isPrefixOf (a :: rest) = false := by
        rw [Bool.eq_false_iff]
        intro hc
        exact h0 (List.isPrefixOf_iff_prefix.mp hc)
      have ih' : findSub pat rest = some k' := by
        apply ih
        · simpa using hk
        · intro i hi
          have := hlt (i + 1) (Nat.succ_lt_succ hi)
          simpa using this
      simp [findSub, hp, ih']

/-! ### StreamBuffer (src/sdk/dongle/buffer.py)

Thread-safe FIFO byte buffer with overwrite-on-overflow.  The lock only
serialises access; the sequential semantics is the record update below.
`pythonTailSlice k data` models the Python slice `data[-k:]` (note that for
`k = 0` Python returns the whole list, not the empty list). -/

def pythonTailSlice (k : Nat) (data : List Nat) : List Nat :=
  if k = 0 then data else data.drop (data.length - k)

structure StreamBuffer where
  max_size : Nat
  buffer : List Nat
  overflow_count : Nat
deriving Repr, DecidableEq

def StreamBuffer.write (b : StreamBuffer) (data : List Nat) : StreamBuffer :=
  if data = [] then b
  else if b.max_size ≤ data.length then
    { b with buffer := pythonTailSlice b.max_size data,
             overflow_count := b.overflow_count + 1 }
  else if b.max_size < b.buffer.length + data.length then
    { b with buffer := b.buffer.drop (b.buffer.length + data.length - b.max_size) ++ data,
             overflow_count := b.overflow_count + 1 }
  else
    { b with buffer := b.buffer ++ data }

def StreamBuffer.read (b : StreamBuffer) (size : Int) : List Nat × StreamBuffer :=
  if b.buffer = [] then ([], b)
  else if size < 0 ∨ (b.buffer.length : Int) ≤ size then
    (b.buffer, { b with buffer := [] })
  else
    (b.buffer.take size.toNat, { b with buffer := b.buffer.drop size.toNat })

def StreamBuffer.read_line (b : StreamBuffer) : List Nat × StreamBuffer :=
  match findSub [10] b.buffer with
  | none => ([], b)
  | some idx =>
    (b.buffer.take (idx + 1), { b with buffer := b.buffer.drop (idx + 1) })

def StreamBuffer.clear (b : StreamBuffer) : StreamBuffer :=
  { b with buffer := [] }

/-- Operations a client can perform on a `StreamBuffer`. -/
inductive BufOp where
  | write (data : List Nat)
  | read (size : Int)
  | readLine
  | clear
deriving Repr, DecidableEq

def BufOp.apply (b : StreamBuffer) : BufOp → StreamBuffer
  | .write d => b.write d
  | .read s => (b.read s).2
  | .readLine => b.read_line.2
  | .clear => b.clear

/-- Run a sequence of operations on a freshly constructed buffer of capacity `c`. -/
def runBufOps (c : Nat) (ops : List BufOp) : StreamBuffer :=
  ops.foldl BufOp.apply { max_size := c, buffer := [], overflow_count := 0 }

/-! ### ProtocolParser (src/sdk/protocol/parser.py)

Text is `List Char`.  `pyStrip` models Python `str.strip()` (ASCII
whitespace), `lstripChar`/`rstripChar` model `str.lstrip(c)`/`str.rstrip(c)`
(which remove *all* leading/trailing occurrences), and `replaceFirst` models
`str.replace(pat, "", 1)`. -/

def isPySpace (c : Char) : Bool :=
  c == ' ' || c == '\t' || c == '\n' || c == '\r' || c == '\x0b' || c == '\x0c'

def pyStrip (s : List Char) : List Char :=
  ((s.dropWhile isPySpace).reverse.dropWhile isPySpace).reverse

def lstripChar (c : Char) (s : List Char) : List Char :=
  s.dropWhile (· == c)

def rstripChar (c : Char) (s : List Char) : List Char :=
  (s.reverse.dropWhile (· == c)).reverse

def replaceFirst (pat : List Char) (s : List Char) : List Char :=
  match findSub pat s with
  | none => s
  | some i => s.take i ++ s.drop (i + pat.length)

/-- Models `str.split(",")` restricted to the single-character separator
used by the protocol. -/
def splitOnComma : List Char → List (List Char)
  | [] => [[]]
  | c :: rest =>
    if c = ',' then [] :: splitOnComma rest
    else
      match splitOnComma rest with
      | [] => [[c]]
      | t :: ts => (c :: t) :: ts

/-- Consume leading decimal digits: returns accumulated value, digit count
and the rest of the input. -/
def parseDigitsAux : List Char → Nat → Nat → Nat × Nat × List Char
  | [], acc, n => (acc, n, [])
  | c :: rest, acc, n =>
    if c.isDigit then parseDigitsAux rest (acc * 10 + (c.toNat - 48)) (n + 1)
    else (acc, n, c :: rest)

def pyFloatExpDigits? (s : List Char) (mantissa : ℚ) (esign : Int) : Option ℚ :=
  match parseDigitsAux s 0 0 with
  | (ev, ec, r2) =>
    if ec = 0 ∨ r2 ≠ [] then none
    else some (mantissa * (10 : ℚ) ^ (esign * (ev : Int)))

def pyFloatExp? (s : List Char) (mantissa : ℚ) : Option ℚ :=
  match s with
  | '+' :: r => pyFloatExpDigits? r mantissa 1
  | '-' :: r => pyFloatExpDigits? r mantissa (-1)
  | r => pyFloatExpDigits? r mantissa 1

def pyFloatUnsigned? (s : List Char) (sign : ℚ) : Option ℚ :=
  match parseDigitsAux s 0 0 with
  | (ip, ipc, s2) =>
    match
      (match s2 with
       | '.' :: r => parseDigitsAux r 0 0
       | r => (0, 0, r)) with
    | (fp, fpc, s3) =>
      if ipc = 0 ∧ fpc = 0 then none
      else
        match s3 with
        | [] => some (sign * ((ip : ℚ) + (fp : ℚ) / (10 : ℚ) ^ fpc))
        | 'e' :: r => pyFloatExp? r (sign * ((ip : ℚ) + (fp : ℚ) / (10 : ℚ) ^ fpc))
        | 'E' :: r => pyFloatExp? r (sign * ((ip : ℚ) + (fp : ℚ) / (10 : ℚ) ^ fpc))
        | _ => none

/-- Model of Python `float(token)` on the finite decimal / scientific
literals the wire protocol carries (optional sign, digits, optional
fraction, optional exponent).  `inf`/`nan`/hex/underscore forms are not
produced by the firmware and are treated as non-numeric. -/
def pyFloat? (s : List Char) : Option ℚ :=
  match s with
  | '+' :: r => pyFloatUnsigned? r 1
  | '-' :: r => pyFloatUnsigned? r (-1)
  | r => pyFloatUnsigned? r 1

/-- `ProtocolParser._parse_csv` token loop: empty tokens are skipped
(`continue`), a non-numeric token aborts with `none` (the source returns
`[]` there, modelled below by `getD []`). -/
def parseTokens : List (List Char) → Option (List ℚ)
  | [] => some []
  | t :: ts =>
    if pyStrip t = [] then parseTokens ts
    else
      match pyFloat? (pyStrip t) with
      | none => none
      | some v => (parseTokens ts).map (v :: ·)

/-- `ProtocolParser._parse_csv`. -/
def parse_csv (payload : List Char) : List ℚ :=
  if rstripChar '>' (lstripChar '<' (pyStrip payload)) = [] then []
  else
    (parseTokens (splitOnComma
      ((rstripChar '>' (lstripChar '<' (pyStrip payload))).map
        (fun c => if c = ';' then ',' else c)))).getD []

inductive UpdateType where
  | finger_positions
  | raw_positions
  | imu_heading
deriving Repr, DecidableEq

structure StateUpdate where
  update_type : UpdateType
  values : List ℚ
deriving Repr, DecidableEq

def kwSTRIMU : List Char := "STRIMU".data

def kwSTREAM_RAW : List Char := "STREAM_RAW".data

def kwSTREAM : List Char := "STREAM".data

/-- `ProtocolParser.parse_line`. -/
def parse_line (line : List Char) : Option StateUpdate :=
  if pyStrip line = [] then none
  else if kwSTRIMU.isPrefixOf (pyStrip line) then
    if (parse_csv (pyStrip (replaceFirst kwSTRIMU (pyStrip line)))).length = 3 then
      some ⟨UpdateType.imu_heading,
            parse_csv (pyStrip (replaceFirst kwSTRIMU (pyStrip line)))⟩
    else none
  else if kwSTREAM_RAW.isPrefixOf (pyStrip line) then
    if (parse_csv (pyStrip (replaceFirst kwSTREAM_RAW (pyStrip line)))).length = 5 then
      some ⟨UpdateType.raw_positions,
            parse_csv (pyStrip (replaceFirst kwSTREAM_RAW (pyStrip line)))⟩
    else none
  else if kwSTREAM.isPrefixOf (pyStrip line) then
    if (parse_csv (pyStrip (replaceFirst kwSTREAM (pyStrip line)))).length = 5 then
      some ⟨UpdateType.finger_positions,
            parse_csv (pyStrip (replaceFirst kwSTREAM (pyStrip line)))⟩
    else none
  else none

/-! ### ProtocolSerializer (src/sdk/protocol/serializer.py)

Only the Setpoint branch is needed by the claims.  `formatFixed5` models
Python `f"{value:.5f}"` on clamped (hence nonnegative) rationals: correct
rounding to 5 decimal places with ties to even, then decimal rendering. -/

def FINGER_NAMES : List (List Char) :=
  ["thumb".data, "index".data, "middle".data, "ring".data, "pinky".data]

/-- A `SetpointCommand`: `fingers` is the `Dict[str, float]` (lookup
returns `none` for absent keys), `side` the optional side filter. -/
structure SetpointCommand where
  fingers : List Char → Option ℚ
  side : Option (List Char)

def digitChar10 (d : Nat) : Char := Char.ofNat (48 + d)

def natDigitsAux : Nat → Nat → List Char
  | 0, _ => []
  | fuel + 1, n =>
    if n < 10 then [digitChar10 n]
    else natDigitsAux fuel (n / 10) ++ [digitChar10 (n % 10)]

/-- Decimal rendering of a natural number (models `str(n)`). -/
def natRepr (n : Nat) : List Char := natDigitsAux (n + 1) n

/-- Round a rational to the nearest integer, ties to even (the rounding
performed by CPython float formatting). -/
def roundHalfEven (x : ℚ) : Int :=
  if x - Rat.floor x < 1 / 2 then Rat.floor x
  else if 1 / 2 < x - Rat.floor x then Rat.floor x + 1
  else if Rat.floor x % 2 = 0 then Rat.floor x else Rat.floor x + 1

/-- Model of `f"{q:.5f}"` for `0 ≤ q` (setpoint values are clamped to
`[0, 1]` before formatting). -/
def formatFixed5 (q : ℚ) : List Char :=
  natRepr ((roundHalfEven (q * 100000)).toNat / 100000) ++
    '.' :: (List.replicate (5 - (natRepr ((roundHalfEven (q * 100000)).toNat % 100000)).length) '0' ++
      natRepr ((roundHalfEven (q * 100000)).toNat % 100000))

/-- Models `max(0.0, min(1.0, value))`. -/
def clamp01 (q : ℚ) : ℚ := max 0 (min 1 q)

/-- Models `" ".join(parts)`. -/
def spaceJoin : List (List Char) → List Char
  | [] => []
  | [p] => p
  | p :: rest => p ++ ' ' :: spaceJoin rest

/-- The `f"-{finger_name} {value:.5f}"` part for one finger. -/
def setpointPart (cmd : SetpointCommand) (name : List Char) : List Char :=
  '-' :: name ++ ' ' :: formatFixed5 (clamp01 ((cmd.fingers name).getD 0))

/-- `ProtocolSerializer._serialize_setpoint`. -/
def serialize_setpoint (cmd : SetpointCommand) : List Char :=
  spaceJoin ("!setSetpointAll".data ::
    (FINGER_NAMES.map (setpointPart cmd) ++
      (match cmd.side with
       | some s =>
         if s = "both".data ∨ s = "above".data ∨ s = "below".data
         then ["-side ".data ++ s] else []
       | none => [])))

/-! ### StateBuilder (src/sdk/protocol/state_builder.py)

The `_fingers` dict always holds exactly the five fixed finger names, so
fingers are indexed by the inductive `Finger`; name-keyed setters look the
name up first (`if finger_name in self._fingers`), a miss being a no-op.
Python `int(x)` on the nonnegative clamped raw value is `Rat.floor`. -/

def RAW_MAX : Int := 4095

inductive Finger where
  | thumb
  | index
  | middle
  | ring
  | pinky
deriving Repr, DecidableEq

def fingerName : Finger → List Char
  | .thumb => "thumb".data
  | .index => "index".data
  | .middle => "middle".data
  | .ring => "ring".data
  | .pinky => "pinky".data

def fingerList : List Finger :=
  [Finger.thumb, Finger.index, Finger.middle, Finger.ring, Finger.pinky]

def fingerOfName? (name : List Char) : Option Finger :=
  fingerList.find? (fun f => fingerName f = name)

structure FingerData where
  position : ℚ
  setpoint : ℚ
  calibrated : Bool
  enabled : Bool
  raw_min : Int
  raw_max : Int
  invert : Bool
deriving Repr, DecidableEq

structure StateBuilder where
  fingers : Finger → FingerData
  imu_roll : ℚ
  imu_pitch : ℚ
  imu_yaw : ℚ
  calibrating : Bool
  streaming : Bool
  connected : Bool

def initFingerData (f : Finger) : FingerData :=
  { position := 0, setpoint := 0, calibrated := false, enabled := false,
    raw_min := RAW_MAX, raw_max := 0, invert := f = Finger.thumb }

def StateBuilder.init : StateBuilder :=
  { fingers := initFingerData, imu_roll := 0, imu_pitch := 0, imu_yaw := 0,
    calibrating := false, streaming := false, connected := false }

def updateFinger (s : StateBuilder) (f : Finger) (g : FingerData → FingerData) :
    StateBuilder :=
  { s with fingers := fun f' => if f' = f then g (s.fingers f) else s.fingers f' }

/-- One iteration of the `_apply_finger_positions` loop. -/
def fingerPosStep (st : StateBuilder) (fv : Finger × ℚ) : StateBuilder :=
  updateFinger st fv.1 (fun d => { d with position := clamp01 fv.2 })

def StateBuilder.applyFingerPositions (s : StateBuilder) (values : List ℚ) :
    StateBuilder :=
  (fingerList.zip values).foldl fingerPosStep s

/-- `_apply_raw_positions` window update: lower the tracked min / raise the
tracked max with `int(raw_value)` when the clamped value `rv` falls outside
the window. -/
def rawMinUpd (rv : ℚ) (d : FingerData) : FingerData :=
  if rv < (d.raw_min : ℚ) then { d with raw_min := Rat.floor rv } else d

def rawMaxUpd (rv : ℚ) (d : FingerData) : FingerData :=
  if (d.raw_max : ℚ) < rv then { d with raw_max := Rat.floor rv } else d

/-- `_apply_raw_positions` position computation on the (already updated)
finger data. -/
def rawPosFinish (rv : ℚ) (d : FingerData) : FingerData :=
  if d.calibrated ∧ d.raw_min < d.raw_max then
    { d with position :=
        if d.invert then
          1 - clamp01 ((rv - (d.raw_min : ℚ)) / ((d.raw_max : ℚ) - (d.raw_min : ℚ)))
        else clamp01 ((rv - (d.raw_min : ℚ)) / ((d.raw_max : ℚ) - (d.raw_min : ℚ))) }
  else { d with position := rv / (RAW_MAX : ℚ) }

/-- Window update followed by the position computation, on the
already-clamped raw value `rv`. -/
def rawPosData (calibrating : Bool) (d : FingerData) (rv : ℚ) : FingerData :=
  rawPosFinish rv (if calibrating then rawMaxUpd rv (rawMinUpd rv d) else d)

/-- One iteration of the `_apply_raw_positions` loop, for finger `fv.1`
with incoming value `fv.2` (clamped to `[0, RAW_MAX]` first). -/
def rawPosStep (st : StateBuilder) (fv : Finger × ℚ) : StateBuilder :=
  updateFinger st fv.1 (fun d =>
    rawPosData st.calibrating d (max 0 (min (RAW_MAX : ℚ) fv.2)))

def StateBuilder.applyRawPositions (s : StateBuilder) (values : List ℚ) :
    StateBuilder :=
  (fingerList.zip values).foldl rawPosStep s

def StateBuilder.applyImuHeading (s : StateBuilder) (values : List ℚ) :
    StateBuilder :=
  if 3 ≤ values.length then
    { s with imu_roll := values.getD 0 0, imu_pitch := values.getD 1 0,
             imu_yaw := values.getD 2 0 }
  else s

/-- `StateBuilder.apply`: dispatch on the update type. -/
def StateBuilder.apply (s : StateBuilder) (u : StateUpdate) : StateBuilder :=
  match u.update_type with
  | .finger_positions => s.applyFingerPositions u.values
  | .raw_positions => s.applyRawPositions u.values
  | .imu_heading => s.applyImuHeading u.values

def StateBuilder.set_calibrating (s : StateBuilder) (calibrating : Bool) :
    StateBuilder :=
  if calibrating then
    { s with calibrating := calibrating,
             fingers := fun f =>
               { s.fingers f with raw_min := RAW_MAX, raw_max := 0 } }
  else { s with calibrating := calibrating }

def StateBuilder.set_streaming (s : StateBuilder) (streaming : Bool) : StateBuilder :=
  { s with streaming := streaming }

def StateBuilder.set_connected (s : StateBuilder) (connected : Bool) : StateBuilder :=
  { s with connected := connected }

def StateBuilder.set_finger_enabled (s : StateBuilder) (name : List Char)
    (enabled : Bool) : StateBuilder :=
  match fingerOfName? name with
  | none => s
  | some f => updateFinger s f (fun d => { d with enabled := enabled })

def StateBuilder.set_finger_setpoint (s : StateBuilder) (name : List Char)
    (setpoint : ℚ) : StateBuilder :=
  match fingerOfName? name with
  | none => s
  | some f => updateFinger s f (fun d => { d with setpoint := clamp01 setpoint })

def StateBuilder.apply_calibration (s : StateBuilder) (name : List Char)
    (raw_min raw_max : Int) : StateBuilder :=
  match fingerOfName? name with
  | none => s
  | some f =>
    updateFinger s f (fun d =>
      { d with raw_min := raw_min, raw_max := raw_max,
               calibrated := decide (raw_min < raw_max) })

/-- Immutable per-finger snapshot record (`FingerState` in models.py;
the `name` field is determined by the key and omitted). -/
structure FingerStateSnap where
  position : ℚ
  setpoint : ℚ
  calibrated : Bool
  enabled : Bool
  raw_min : Int
  raw_max : Int
deriving Repr, DecidableEq

/-- Immutable snapshot (`GloveState`); the wall-clock timestamp is an
external input. -/
structure GloveStateSnap where
  timestamp : ℚ
  fingers : Finger → FingerStateSnap
  imu_roll : ℚ
  imu_pitch : ℚ
  imu_yaw : ℚ
  connected : Bool
  calibrating : Bool
  streaming : Bool

/-- `StateBuilder.snapshot`. -/
def StateBuilder.snapshot (s : StateBuilder) (ts : ℚ) : GloveStateSnap :=
  { timestamp := ts,
    fingers := fun f =>
      { position := (s.fingers f).position, setpoint := (s.fingers f).setpoint,
        calibrated := (s.fingers f).calibrated, enabled := (s.fingers f).enabled,
        raw_min := (s.fingers f).raw_min, raw_max := (s.fingers f).raw_max },
    imu_roll := s.imu_roll, imu_pitch := s.imu_pitch, imu_yaw := s.imu_yaw,
    connected := s.connected, calibrating := s.calibrating,
    streaming := s.streaming }

/-- The public operations of `StateBuilder`, for quantifying over call
sequences. -/
inductive BuilderOp where
  | apply (u : StateUpdate)
  | set_calibrating (b : Bool)
  | set_streaming (b : Bool)
  | set_connected (b : Bool)
  | set_finger_enabled (name : List Char) (b : Bool)
  | set_finger_setpoint (name : List Char) (v : ℚ)
  | apply_calibration (name : List Char) (lo hi : Int)

def BuilderOp.run (s : StateBuilder) : BuilderOp → StateBuilder
  | .apply u => s.apply u
  | .set_calibrating b => s.set_calibrating b
  | .set_streaming b => s.set_streaming b
  | .set_connected b => s.set_connected b
  | .set_finger_enabled n b => s.set_finger_enabled n b
  | .set_finger_setpoint n v => s.set_finger_setpoint n v
  | .apply_calibration n lo hi => s.apply_calibration n lo hi

def runBuilderOps (ops : List BuilderOp) : StateBuilder :=
  ops.foldl BuilderOp.run StateBuilder.init

/-! ### StatusMonitor (src/sdk/dongle/status_monitor.py)

Traffic is `List Nat` (bytes).  `parse_status_json` (src/sdk/dongle/status.py,
UTF-8 decode + `json.loads` + `DongleStatus.from_json`) enters the monitor
only as an opaque call returning `Option`, so the monitor is embedded
parametrically in a parse function `parse : List Nat → Option σ`; the
claims constrain it through `parse payload = none / some s` hypotheses. -/

def ESC_STATUS_START : List Nat :=
  [0xFF, 0x34] ++ "[STATUS_RESPONSE]".data.map Char.toNat

def ESC_STATUS_END : List Nat := [0xFF, 0x34]

def STATUS_MONITOR_MAX_BUFFER_SIZE : Nat := 64 * 1024

/-- `StatusMonitor._try_extract_status`: returns the parse result (which is
`none` both when no complete frame is present and when the payload fails to
parse) together with the updated buffer.  Note the buffer is consumed
through the end marker even when the parse fails. -/
def tryExtractStatus (parse : List Nat → Option σ) (buf : List Nat) :
    Option σ × List Nat :=
  match findSub ESC_STATUS_START buf with
  | none => (none, buf)
  | some start_idx =>
    match findSub ESC_STATUS_END (buf.drop (start_idx + ESC_STATUS_START.length)) with
    | none => (none, buf)
    | some rel_end =>
      (parse ((buf.drop (start_idx + ESC_STATUS_START.length)).take rel_end),
       buf.drop (start_idx + ESC_STATUS_START.length + rel_end + ESC_STATUS_END.length))

/-- The `while True` extraction loop of `_process_chunk`: collects the
statuses handed to `_notify_callbacks`, stopping as soon as
`_try_extract_status` returns `none`.  `fuel` bounds the iteration count;
each successful extraction consumes at least the two markers, so
`buf.length + 1` iterations are never exhausted. -/
def extractLoop (parse : List Nat → Option σ) : Nat → List Nat → List σ × List Nat
  | 0, buf => ([], buf)
  | fuel + 1, buf =>
    match tryExtractStatus parse buf with
    | (none, buf1) => ([], buf1)
    | (some s, buf1) =>
      match extractLoop parse fuel buf1 with
      | (out, buf2) => (s :: out, buf2)

/-- `StatusMonitor._trim_buffer`. -/
def trimBuffer (buf : List Nat) : List Nat :=
  if buf.length ≤ STATUS_MONITOR_MAX_BUFFER_SIZE then buf
  else buf.drop (buf.length - STATUS_MONITOR_MAX_BUFFER_SIZE)

/-- `StatusMonitor._process_chunk`: append, trim, then extract repeatedly.
Returns the statuses emitted to subscribers (in order) and the final
buffer. -/
def processChunk (parse : List Nat → Option σ) (buf chunk : List Nat) :
    List σ × List Nat :=
  extractLoop parse ((trimBuffer (buf ++ chunk)).length + 1) (trimBuffer (buf ++ chunk))

/-- Deliver a queue of chunks in order (`process_pending`); empty chunks
are skipped (`if chunk:`). -/
def processChunks (parse : List Nat → Option σ) (buf : List Nat) :
    List (List Nat) → List σ × List Nat
  | [] => ([], buf)
  | c :: rest =>
    if c = [] then processChunks parse buf rest
    else
      match processChunk parse buf c with
      | (out, buf1) =>
        match processChunks parse buf1 rest with
        | (out2, buf2) => (out ++ out2, buf2)

/-- A complete status frame: start marker, JSON payload, end marker. -/
def statusFrame (payload : List Nat) : List Nat :=
  ESC_STATUS_START ++ payload ++ ESC_STATUS_END

/-- Concrete test fixture: bytes of a payload the toy parser accepts. -/
def toyStatusOk : List Nat := "{ok}".data.map Char.toNat

/-- Concrete test fixture: the bytes of `{bad`, a payload no parser
accepts (models an unparseable JSON body). -/
def toyStatusBad : List Nat := [123, 98, 97, 100]

/-- Concrete stand-in for `parse_status_json` used to instantiate the
parametric monitor theorems on explicit inputs. -/
def toyParse (bs : List Nat) : Option Nat :=
  if bs = toyStatusOk then some 1 else none

/-- Position of a finger in the canonical `FINGER_NAMES` order. -/
def fingerIndex : Finger → Nat
  | .thumb => 0
  | .index => 1
  | .middle => 2
  | .ring => 3
  | .pinky => 4

/-- The position/setpoint range invariant of the spec's FingerState. -/
def posSetptInv (s : StateBuilder) : Prop :=
  ∀ f : Finger,
    0 ≤ (s.fingers f).position ∧ (s.fingers f).position ≤ 1 ∧
    0 ≤ (s.fingers f).setpoint ∧ (s.fingers f).setpoint ≤ 1

/-! ## Theorems

### StreamBuffer: C3, C4, C9 -/

theorem apply_max_size (b : StreamBuffer) (op : BufOp) :
    (BufOp.apply b op).max_size = b.max_size := by
  cases op with
  | write d =>
    simp only [BufOp.apply]
    unfold StreamBuffer.write
    split_ifs <;> rfl
  | read s =>
    simp only [BufOp.apply, StreamBuffer.read]
    split_ifs <;> rfl
  | readLine =>
    simp only [BufOp.apply, StreamBuffer.read_line]
    cases findSub [10] b.buffer <;> rfl
  | clear => rfl

theorem write_length_le (b : StreamBuffer) (data : List Nat)
    (hcap : 1 ≤ b.max_size) (hb : b.buffer.length ≤ b.max_size) :
    (b.write data).buffer.length ≤ b.max_size := by
  unfold StreamBuffer.write pythonTailSlice
  split_ifs <;> (simp_all; try omega)

theorem apply_length_le (b : StreamBuffer) (op : BufOp)
    (hcap : 1 ≤ b.max_size) (hb : b.buffer.length ≤ b.max_size) :
    (BufOp.apply b op).buffer.length ≤ b.max_size := by
  cases op with
  | write d => exact write_length_le b d hcap hb
  | read s =>
    simp only [BufOp.apply, StreamBuffer.read]
    split_ifs <;> (simp_all; try omega)
  | readLine =>
    simp only [BufOp.apply, StreamBuffer.read_line]
    cases findSub [10] b.buffer with
    | none => exact hb
    | some idx => simp; omega
  | clear => simp [BufOp.apply, StreamBuffer.clear]

theorem foldl_apply_length_le (ops : List BufOp) (b : StreamBuffer)
    (hcap : 1 ≤ b.max_size) (hb : b.buffer.length ≤ b.max_size) :
    (ops.foldl BufOp.apply b).buffer.length ≤ b.max_size := by
  induction ops generalizing b with
  | nil => exact hb
  | cons op rest ih =>
    simp only [List.foldl_cons]
    have hms := apply_max_size b op
    have := ih (BufOp.apply b op) (hms ▸ hcap) (hms ▸ apply_length_le b op hcap hb)
    exact hms ▸ this

/-- C4 (amended): for any sequence of write / read / read_line / clear
operations on a StreamBuffer with configured capacity `C ≥ 1`, the number
of bytes held in the buffer never exceeds `C`. -/
theorem c4_capacity_invariant (c : Nat) (hc : 1 ≤ c) (ops : List BufOp) :
    (runBufOps c ops).buffer.length ≤ c :=
  foldl_apply_length_le ops _ hc (by simp)

theorem c4_capacity_invariant_witness :
    1 ≤ 8 ∧ (runBufOps 8 [BufOp.write [1, 2, 3], BufOp.readLine]).buffer.length ≤ 8 :=
  ⟨by decide, c4_capacity_invariant 8 (by decide) _⟩

/-- C4 counterexample: at configured capacity 0 a one-byte write leaves one
byte in the buffer (`data[-0:]` is the whole chunk in Python), so the bound
fails for capacity 0. -/
theorem c4_counterexample :
    ¬ ∀ (c : Nat) (ops : List BufOp), (runBufOps c ops).buffer.length ≤ c := by
  intro h
  exact absurd (h 0 [BufOp.write [7]]) (by decide)

/-- C3 (amended, capacity `C ≥ 1`): `write` on an empty chunk is a no-op;
a chunk of length `≥ C` replaces the buffer by exactly the last `C` bytes
of the chunk and bumps the overflow counter; a smaller chunk that would
overflow drops exactly `current + incoming − C` oldest bytes, bumps the
counter and appends; otherwise the chunk is appended unchanged. -/
theorem c3_write_cases (b : StreamBuffer) (data : List Nat) (hcap : 1 ≤ b.max_size) :
    (data = [] → b.write data = b) ∧
    (data ≠ [] → b.max_size ≤ data.length →
      (b.write data).buffer = data.drop (data.length - b.max_size) ∧
      (b.write data).buffer.length = b.max_size ∧
      (b.write data).overflow_count = b.overflow_count + 1) ∧
    (data ≠ [] → data.length < b.max_size →
        b.max_size < b.buffer.length + data.length →
      (b.write data).buffer =
        b.buffer.drop (b.buffer.length + data.length - b.max_size) ++ data ∧
      (b.write data).overflow_count = b.overflow_count + 1) ∧
    (data ≠ [] → data.length < b.max_size →
        b.buffer.length + data.length ≤ b.max_size →
      (b.write data).buffer = b.buffer ++ data ∧
      (b.write data).overflow_count = b.overflow_count) := by
  refine ⟨fun h => by simp [StreamBuffer.write, h], ?_, ?_, ?_⟩ <;>
    · intros
      unfold StreamBuffer.write pythonTailSlice
      split_ifs <;> simp_all <;> omega

theorem c3_write_cases_witness :
    (StreamBuffer.write ⟨4, [1, 2], 0⟩ [5, 6, 7]).buffer = [2, 5, 6, 7] ∧
    (StreamBuffer.write ⟨4, [1, 2], 0⟩ [5, 6, 7]).overflow_count = 1 := by
  have h := (c3_write_cases ⟨4, [1, 2], 0⟩ [5, 6, 7] (by decide)).2.2.1
    (by decide) (by decide) (by decide)
  exact ⟨by simpa using h.1, h.2⟩

/-- C3 counterexample: at capacity 0, writing the one-byte chunk `[7]` (of
length `≥ 0`) leaves the buffer equal to the whole chunk, not to the last
0 bytes of it. -/
theorem c3_counterexample :
    (StreamBuffer.write ⟨0, [], 0⟩ [7]).buffer ≠ [7].drop ([7].length - 0) := by
  decide

theorem findSub_singleton_none [DecidableEq α] (a : α) (l : List α) (h : a ∉ l) :
    findSub [a] l = none := by
  induction l with
  | nil => simp [findSub]
  | cons x rest ih =>
    simp only [List.mem_cons, not_or] at h
    have hx : ([a].isPrefixOf (x :: rest)) = false := by
      simp only [List.isPrefixOf, Bool.and_eq_false_iff, beq_eq_false_iff_ne]
      exact Or.inl fun he => h.1 he
    simp [findSub, hx, ih h.2]

theorem findSub_singleton_some [DecidableEq α] (a : α) (l : List α) (h : a ∈ l) :
    ∃ p rest, l = p ++ a :: rest ∧ a ∉ p ∧ findSub [a] l = some p.length := by
  induction l with
  | nil => cases h
  | cons x rest ih =>
    by_cases hx : x = a
    · subst hx
      exact ⟨[], rest, rfl, by simp, by simp [findSub, List.isPrefixOf]⟩
    · have h' : a ∈ rest := by
        rcases List.mem_cons.mp h with h1 | h1
        · exact absurd h1.symm hx
        · exact h1
      obtain ⟨p, r, hl, hp, hf⟩ := ih h'
      refine ⟨x :: p, r, by simp [hl], ?_, ?_⟩
      · simp only [List.mem_cons, not_or]
        exact ⟨fun he => hx he.symm, hp⟩
      · have hpre : ([a].isPrefixOf (x :: rest)) = false := by
          simp only [List.isPrefixOf, Bool.and_eq_false_iff, beq_eq_false_iff_ne]
          exact Or.inl fun he => hx he.symm
        simp [findSub, hpre, hf]

/-- C9: if the buffer contains a newline byte, `read_line` returns the
prefix through the first newline and removes exactly those bytes;
otherwise it returns empty bytes, leaves the buffer unchanged, and a
second call returns the same empty result. -/
theorem c9_read_line_spec (b : StreamBuffer) :
    ((10 : Nat) ∈ b.buffer →
      ∃ p rest, b.buffer = p ++ 10 :: rest ∧ (10 : Nat) ∉ p ∧
        b.read_line = (p ++ [10], { b with buffer := rest })) ∧
    ((10 : Nat) ∉ b.buffer →
      b.read_line = ([], b) ∧ b.read_line.2.read_line = ([], b)) := by
  constructor
  · intro hmem
    obtain ⟨p, rest, hl, hp, hf⟩ := findSub_singleton_some 10 b.buffer hmem
    refine ⟨p, rest, hl, hp, ?_⟩
    unfold StreamBuffer.read_line
    rw [hf]
    have ht : b.buffer.take (p.length + 1) = p ++ [10] := by
      rw [hl, List.take_append_eq_append_take]
      simp
    have hd : b.buffer.drop (p.length + 1) = rest := by
      rw [hl, List.drop_append_eq_append_drop]
      simp
    simp [ht, hd]
  · intro hmem
    have hf := findSub_singleton_none 10 b.buffer hmem
    have h1 : b.read_line = ([], b) := by
      unfold StreamBuffer.read_line
      rw [hf]
    exact ⟨h1, by rw [h1]; exact h1⟩

theorem c9_read_line_spec_witness :
    (10 : Nat) ∈ [65, 10, 66] ∧
    ∃ p rest, ([65, 10, 66] : List Nat) = p ++ 10 :: rest ∧ (10 : Nat) ∉ p ∧
      (StreamBuffer.mk 16 [65, 10, 66] 0).read_line =
        (p ++ [10], { StreamBuffer.mk 16 [65, 10, 66] 0 with buffer := rest }) :=
  ⟨by decide, (c9_read_line_spec ⟨16, [65, 10, 66], 0⟩).1 (by decide)⟩

/-! ### ProtocolParser: C7 -/

/-- C7: `parse_line` trims whitespace, matches keywords longest-prefix-first
(a raw-positions line is never classified as finger positions), strips
optional angle brackets, accepts comma- or semicolon-separated numeric
tokens, and yields an update only at the exact arity (5/5/3); arity
mismatches, non-numeric tokens and unknown keywords all give `none`.
Includes the spec's concrete examples. -/
theorem c7_parse_line_spec :
    (parse_line "STREAM 0.1,0.2,0.3,0.4,0.5".data =
      some ⟨UpdateType.finger_positions, [1/10, 1/5, 3/10, 2/5, 1/2]⟩) ∧
    (parse_line "STREAM 0.1,0.2,0.3".data = none) ∧
    (parse_line "  STREAM <0.1;0.2;0.3;0.4;0.5>  ".data =
      some ⟨UpdateType.finger_positions, [1/10, 1/5, 3/10, 2/5, 1/2]⟩) ∧
    (parse_line "STREAM 0.1,0.2,abc,0.4,0.5".data = none) ∧
    (parse_line "WIBBLE 1,2,3".data = none) ∧
    (∀ l : List Char, kwSTREAM_RAW <+: pyStrip l →
      ∀ u, parse_line l = some u → u.update_type = UpdateType.raw_positions) ∧
    (∀ (l : List Char) (u : StateUpdate), parse_line l = some u →
      (u.update_type = UpdateType.finger_positions → u.values.length = 5) ∧
      (u.update_type = UpdateType.raw_positions → u.values.length = 5) ∧
      (u.update_type = UpdateType.imu_heading → u.values.length = 3)) := by
  refine ⟨by decide, by decide, by decide, by decide, by decide, ?_, ?_⟩
  · intro l hpre u hu
    unfold parse_line at hu
    have h0 : pyStrip l ≠ [] := by
      intro he
      rw [he] at hpre
      exact absurd (List.prefix_nil.mp hpre) (by decide)
    rw [if_neg h0] at hu
    have hnotimu : kwSTRIMU.isPrefixOf (pyStrip l) = false := by
      rw [Bool.eq_false_iff]
      intro hc
      rcases List.prefix_or_prefix_of_prefix (List.isPrefixOf_iff_prefix.mp hc) hpre
        with h | h
      · exact absurd h (by decide)
      · exact absurd h (by decide)
    rw [hnotimu] at hu
    rw [List.isPrefixOf_iff_prefix.mpr hpre] at hu
    simp only [Bool.false_eq_true, if_false, if_true] at hu
    split_ifs at hu with harr
    all_goals cases hu
    all_goals rfl
  · intro l u hu
    unfold parse_line at hu
    split_ifs at hu with h1 h2 h3 h4 h5 h6 h7
    all_goals cases hu
    all_goals dsimp only
    · refine ⟨?_, ?_, ?_⟩
      · intro h
        cases h
      · intro h
        cases h
      · intro h
        exact h3
    · refine ⟨?_, ?_, ?_⟩
      · intro h
        cases h
      · intro h
        exact h5
      · intro h
        cases h
    · refine ⟨?_, ?_, ?_⟩
      · intro h
        exact h7
      · intro h
        cases h
      · intro h
        cases h

theorem c7_parse_line_spec_witness :
    kwSTREAM_RAW <+: pyStrip "STREAM_RAW 1,2,3,4,5".data ∧
    parse_line "STREAM_RAW 1,2,3,4,5".data =
      some ⟨UpdateType.raw_positions, [1, 2, 3, 4, 5]⟩ ∧
    ∀ u, parse_line "STREAM_RAW 1,2,3,4,5".data = some u →
      u.update_type = UpdateType.raw_positions :=
  ⟨by decide, by decide,
   c7_parse_line_spec.2.2.2.2.2.1 "STREAM_RAW 1,2,3,4,5".data (by decide)⟩

/-! ### ProtocolSerializer: C8, C10 -/

theorem clamp01_nonneg (q : ℚ) : 0 ≤ clamp01 q := le_max_left 0 (min 1 q)

theorem clamp01_le_one (q : ℚ) : clamp01 q ≤ 1 :=
  max_le (by norm_num) (min_le_left 1 q)

theorem digitChar10_ne_newline (d : Nat) (hd : d < 10) : digitChar10 d ≠ '\n' := by
  interval_cases d <;> decide

theorem natDigitsAux_ne_newline (fuel n : Nat) (c : Char)
    (hc : c ∈ natDigitsAux fuel n) : c ≠ '\n' := by
  induction fuel generalizing n with
  | zero => cases hc
  | succ fuel ih =>
    rw [natDigitsAux] at hc
    split_ifs at hc with h
    · rw [List.mem_singleton] at hc
      exact hc ▸ digitChar10_ne_newline n h
    · rcases List.mem_append.mp hc with h1 | h1
      · exact ih (n / 10) h1
      · rw [List.mem_singleton] at h1
        exact h1 ▸ digitChar10_ne_newline (n % 10) (Nat.mod_lt n (by norm_num))

theorem formatFixed5_ne_newline (q : ℚ) : '\n' ∉ formatFixed5 q := by
  intro hc
  unfold formatFixed5 at hc
  rcases List.mem_append.mp hc with h1 | h1
  · exact natDigitsAux_ne_newline _ _ _ h1 rfl
  · rcases List.mem_cons.mp h1 with h2 | h2
    · cases h2
    · rcases List.mem_append.mp h2 with h3 | h3
      · have := List.eq_of_mem_replicate h3
        cases this
      · exact natDigitsAux_ne_newline _ _ _ h3 rfl

theorem mem_spaceJoin (c : Char) (parts : List (List Char))
    (hc : c ∈ spaceJoin parts) : c = ' ' ∨ ∃ p ∈ parts, c ∈ p := by
  induction parts with
  | nil => cases hc
  | cons q rest ih =>
    cases rest with
    | nil =>
      right
      exact ⟨q, List.mem_singleton.mpr rfl, hc⟩
    | cons r rest2 =>
      have hsj : spaceJoin (q :: r :: rest2) = q ++ ' ' :: spaceJoin (r :: rest2) := rfl
      rw [hsj] at hc
      rcases List.mem_append.mp hc with h1 | h1
      · exact Or.inr ⟨q, List.mem_cons_self q _, h1⟩
      · rcases List.mem_cons.mp h1 with h2 | h2
        · exact Or.inl h2
        · rcases ih h2 with h3 | ⟨p, hp, hcp⟩
          · exact Or.inl h3
          · exact Or.inr ⟨p, List.mem_cons_of_mem q hp, hcp⟩

theorem serialize_setpoint_one_line (cmd : SetpointCommand) :
    '\n' ∉ serialize_setpoint cmd := by
  intro hc
  rcases mem_spaceJoin '\n' _ hc with h1 | ⟨p, hp, hcp⟩
  · cases h1
  · rcases List.mem_cons.mp hp with h2 | h2
    · subst h2
      revert hcp
      decide
    · rcases List.mem_append.mp h2 with h3 | h3
      · rcases List.mem_map.mp h3 with ⟨name, hname, rfl⟩
        unfold setpointPart at hcp
        rcases List.mem_cons.mp hcp with h4 | h4
        · cases h4
        · rcases List.mem_append.mp h4 with h5 | h5
          · fin_cases hname <;> revert h5 <;> decide
          · rcases List.mem_cons.mp h5 with h6 | h6
            · cases h6
            · exact formatFixed5_ne_newline _ h6
      · revert h3
        cases cmd.side with
        | none => intro h3; cases h3
        | some s =>
          intro h3
          dsimp only at h3
          split_ifs at h3 with hs
          · rw [List.mem_singleton] at h3
            subst h3
            rcases List.mem_append.mp hcp with h5 | h5
            · revert h5; decide
            · rcases hs with hs | hs | hs <;> subst hs <;> revert h5 <;> decide
          · cases h3

/-- C8: a Setpoint command serializes to exactly one line: the fixed
keyword, then the five fingers in the canonical order thumb, index,
middle, ring, pinky, each as `-name <value>` with the value clamped to
`[0,1]` and formatted to 5 decimal places, then the `-side` flag exactly
when the side is one of both/above/below.  Includes the spec's concrete
example. -/
theorem c8_serialize_setpoint_spec :
    (∀ cmd : SetpointCommand, serialize_setpoint cmd =
      spaceJoin ("!setSetpointAll".data ::
        setpointPart cmd "thumb".data :: setpointPart cmd "index".data ::
        setpointPart cmd "middle".data :: setpointPart cmd "ring".data ::
        setpointPart cmd "pinky".data ::
        (match cmd.side with
         | some s =>
           if s = "both".data ∨ s = "above".data ∨ s = "below".data
           then ["-side ".data ++ s] else []
         | none => []))) ∧
    (∀ (cmd : SetpointCommand) (name : List Char), name ∈ FINGER_NAMES →
      setpointPart cmd name =
        '-' :: name ++ ' ' :: formatFixed5 (clamp01 ((cmd.fingers name).getD 0)) ∧
      0 ≤ clamp01 ((cmd.fingers name).getD 0) ∧
      clamp01 ((cmd.fingers name).getD 0) ≤ 1) ∧
    (∀ cmd : SetpointCommand, '\n' ∉ serialize_setpoint cmd) ∧
    (serialize_setpoint
        ⟨fun n => if n = "thumb".data then some (1/2)
                  else if n = "index".data then some (4/5) else none, none⟩ =
      ("!setSetpointAll -thumb 0.50000 -index 0.80000" ++
        " -middle 0.00000 -ring 0.00000 -pinky 0.00000").data) := by
  refine ⟨fun cmd => rfl, ?_, serialize_setpoint_one_line, by decide⟩
  intro cmd name _
  exact ⟨rfl, clamp01_nonneg _, clamp01_le_one _⟩

theorem c8_serialize_setpoint_spec_witness :
    "index".data ∈ FINGER_NAMES ∧
    (setpointPart ⟨fun _ => some (4/5), none⟩ "index".data =
      '-' :: "index".data ++
        ' ' :: formatFixed5 (clamp01 ((some ((4:ℚ)/5)).getD 0)) ∧
      0 ≤ clamp01 ((some ((4:ℚ)/5)).getD 0) ∧
      clamp01 ((some ((4:ℚ)/5)).getD 0) ≤ 1) :=
  ⟨by decide,
   c8_serialize_setpoint_spec.2.1 ⟨fun _ => some (4/5), none⟩ "index".data (by decide)⟩

theorem infix_spaceJoin (p : List Char) (parts : List (List Char))
    (hp : p ∈ parts) : p <:+: spaceJoin parts := by
  induction parts with
  | nil => cases hp
  | cons q rest ih =>
    cases rest with
    | nil =>
      rw [List.mem_singleton] at hp
      exact hp ▸ List.infix_rfl
    | cons r rest2 =>
      rcases List.mem_cons.mp hp with h1 | h1
      · subst h1
        exact (List.prefix_append p _).isInfix
      · exact (ih h1).trans
          (((List.suffix_cons ' ' _).trans (List.suffix_append q _)).isInfix)

/-- C10: a finger name missing from the command's fingers map is emitted
with value `0.00000`: its serialized part is exactly `-name 0.00000` and
occurs in the output line.  Concretely, a setpoint for thumb alone
commands the other four fingers to zero. -/
theorem c10_omitted_finger_zero :
    (∀ (cmd : SetpointCommand) (name : List Char), name ∈ FINGER_NAMES →
      cmd.fingers name = none →
      setpointPart cmd name = '-' :: name ++ ' ' :: "0.00000".data ∧
      setpointPart cmd name <:+: serialize_setpoint cmd) ∧
    (serialize_setpoint ⟨fun n => if n = "thumb".data then some (1/2) else none, none⟩ =
      ("!setSetpointAll -thumb 0.50000 -index 0.00000" ++
        " -middle 0.00000 -ring 0.00000 -pinky 0.00000").data) := by
  refine ⟨?_, by decide⟩
  intro cmd name hname hnone
  constructor
  · unfold setpointPart
    rw [hnone]
    have : formatFixed5 (clamp01 ((none : Option ℚ).getD 0)) = "0.00000".data := by
      decide
    rw [this]
  · apply infix_spaceJoin
    exact List.mem_cons_of_mem _ (List.mem_append_left _ (List.mem_map_of_mem _ hname))

theorem c10_omitted_finger_zero_witness :
    "ring".data ∈ FINGER_NAMES ∧
    (fun _ : List Char => (none : Option ℚ)) "ring".data = none ∧
    setpointPart ⟨fun _ => none, none⟩ "ring".data =
      '-' :: "ring".data ++ ' ' :: "0.00000".data ∧
    setpointPart ⟨fun _ => none, none⟩ "ring".data <:+:
      serialize_setpoint ⟨fun _ => none, none⟩ := by
  have h := c10_omitted_finger_zero.1 ⟨fun _ => none, none⟩ "ring".data
    (by decide) rfl
  exact ⟨by decide, rfl, h.1, h.2⟩

/-! ### StateBuilder: C1 -/

theorem updateFinger_same (s : StateBuilder) (f : Finger) (g : FingerData → FingerData) :
    (updateFinger s f g).fingers f = g (s.fingers f) := by
  simp [updateFinger]

theorem updateFinger_ne (s : StateBuilder) (f f' : Finger) (g : FingerData → FingerData)
    (h : f' ≠ f) : (updateFinger s f g).fingers f' = s.fingers f' := by
  simp [updateFinger, h]

theorem rawPosData_setpoint (c : Bool) (d : FingerData) (rv : ℚ) :
    (rawPosData c d rv).setpoint = d.setpoint := by
  unfold rawPosData rawPosFinish rawMinUpd rawMaxUpd
  split_ifs <;> rfl

theorem rawPosData_position_bounds (c : Bool) (d : FingerData) (rv : ℚ)
    (h0 : 0 ≤ rv) (h1 : rv ≤ (RAW_MAX : ℚ)) :
    0 ≤ (rawPosData c d rv).position ∧ (rawPosData c d rv).position ≤ 1 := by
  unfold rawPosData
  generalize (if c = true then rawMaxUpd rv (rawMinUpd rv d) else d) = d2
  unfold rawPosFinish
  split_ifs with hcal hinv
  · constructor
    · have := clamp01_le_one ((rv - (d2.raw_min : ℚ)) /
        ((d2.raw_max : ℚ) - (d2.raw_min : ℚ)))
      dsimp only
      linarith
    · have := clamp01_nonneg ((rv - (d2.raw_min : ℚ)) /
        ((d2.raw_max : ℚ) - (d2.raw_min : ℚ)))
      dsimp only
      linarith
  · exact ⟨clamp01_nonneg _, clamp01_le_one _⟩
  · dsimp only
    constructor
    · apply div_nonneg h0
      norm_num [RAW_MAX]
    · rw [div_le_one (by norm_num [RAW_MAX])]
      exact h1

theorem fingerPosStep_inv (st : StateBuilder) (fv : Finger × ℚ)
    (h : posSetptInv st) : posSetptInv (fingerPosStep st fv) := by
  obtain ⟨f1, v⟩ := fv
  intro f
  unfold fingerPosStep
  by_cases hf : f = f1
  · rw [hf, updateFinger_same]
    exact ⟨clamp01_nonneg _, clamp01_le_one _, (h f1).2.2.1, (h f1).2.2.2⟩
  · rw [updateFinger_ne _ _ _ _ hf]
    exact h f

theorem rawPosStep_inv (st : StateBuilder) (fv : Finger × ℚ)
    (h : posSetptInv st) : posSetptInv (rawPosStep st fv) := by
  obtain ⟨f1, v⟩ := fv
  intro f
  unfold rawPosStep
  by_cases hf : f = f1
  · rw [hf, updateFinger_same]
    have hb := rawPosData_position_bounds st.calibrating (st.fingers f1)
      (max 0 (min (RAW_MAX : ℚ) v)) (le_max_left 0 _)
      (max_le (by norm_num [RAW_MAX]) (min_le_left _ _))
    rw [rawPosData_setpoint]
    exact ⟨hb.1, hb.2, (h f1).2.2.1, (h f1).2.2.2⟩
  · rw [updateFinger_ne _ _ _ _ hf]
    exact h f

theorem foldl_fingerPosStep_inv (l : List (Finger × ℚ)) (st : StateBuilder)
    (h : posSetptInv st) : posSetptInv (l.foldl fingerPosStep st) := by
  induction l generalizing st with
  | nil => exact h
  | cons fv rest ih => exact ih _ (fingerPosStep_inv st fv h)

theorem foldl_rawPosStep_inv (l : List (Finger × ℚ)) (st : StateBuilder)
    (h : posSetptInv st) : posSetptInv (l.foldl rawPosStep st) := by
  induction l generalizing st with
  | nil => exact h
  | cons fv rest ih => exact ih _ (rawPosStep_inv st fv h)

theorem run_inv (s : StateBuilder) (op : BuilderOp)
    (h : posSetptInv s) : posSetptInv (BuilderOp.run s op) := by
  cases op with
  | apply u =>
    cases hu : u.update_type with
    | finger_positions =>
      simp only [BuilderOp.run, StateBuilder.apply, hu]
      exact foldl_fingerPosStep_inv _ _ h
    | raw_positions =>
      simp only [BuilderOp.run, StateBuilder.apply, hu]
      exact foldl_rawPosStep_inv _ _ h
    | imu_heading =>
      simp only [BuilderOp.run, StateBuilder.apply, hu]
      unfold StateBuilder.applyImuHeading
      split_ifs <;> exact h
  | set_calibrating b =>
    intro f
    simp only [BuilderOp.run, StateBuilder.set_calibrating]
    split_ifs <;> exact h f
  | set_streaming b => exact h
  | set_connected b => exact h
  | set_finger_enabled n b =>
    intro f
    simp only [BuilderOp.run, StateBuilder.set_finger_enabled]
    cases fingerOfName? n with
    | none => exact h f
    | some f0 =>
      by_cases hf : f = f0
      · subst hf
        rw [updateFinger_same]
        exact h f
      · rw [updateFinger_ne _ _ _ _ hf]
        exact h f
  | set_finger_setpoint n v =>
    intro f
    simp only [BuilderOp.run, StateBuilder.set_finger_setpoint]
    cases fingerOfName? n with
    | none => exact h f
    | some f0 =>
      by_cases hf : f = f0
      · subst hf
        rw [updateFinger_same]
        exact ⟨(h f).1, (h f).2.1, clamp01_nonneg _, clamp01_le_one _⟩
      · rw [updateFinger_ne _ _ _ _ hf]
        exact h f
  | apply_calibration n lo hi =>
    intro f
    simp only [BuilderOp.run, StateBuilder.apply_calibration]
    cases fingerOfName? n with
    | none => exact h f
    | some f0 =>
      by_cases hf : f = f0
      · subst hf
        rw [updateFinger_same]
        exact h f
      · rw [updateFinger_ne _ _ _ _ hf]
        exact h f

theorem init_inv : posSetptInv StateBuilder.init := by
  intro f
  norm_num [StateBuilder.init, initFingerData]

theorem runBuilderOps_inv (ops : List BuilderOp) : posSetptInv (runBuilderOps ops) := by
  unfold runBuilderOps
  have : ∀ (l : List BuilderOp) (s : StateBuilder), posSetptInv s →
      posSetptInv (l.foldl BuilderOp.run s) := by
    intro l
    induction l with
    | nil => exact fun s h => h
    | cons op rest ih => exact fun s h => ih _ (run_inv s op h)
  exact this ops _ init_inv

/-- C1 (amended): in every snapshot reachable by any operation sequence,
position and setpoint lie in `[0, 1]`; `apply_calibration` sets
`calibrated` to `raw_max > raw_min` at the moment of the call.  (The
window relation is not a standing invariant: `set_calibrating(True)`
resets the window without clearing `calibrated`.) -/
theorem c1_invariant_amended :
    (∀ (ops : List BuilderOp) (f : Finger),
      0 ≤ (((runBuilderOps ops).snapshot 0).fingers f).position ∧
      (((runBuilderOps ops).snapshot 0).fingers f).position ≤ 1 ∧
      0 ≤ (((runBuilderOps ops).snapshot 0).fingers f).setpoint ∧
      (((runBuilderOps ops).snapshot 0).fingers f).setpoint ≤ 1) ∧
    (∀ (s : StateBuilder) (name : List Char) (lo hi : Int) (f : Finger),
      fingerOfName? name = some f →
      ((s.apply_calibration name lo hi).fingers f).calibrated = decide (lo < hi)) := by
  constructor
  · intro ops f
    have h := runBuilderOps_inv ops f
    exact ⟨h.1, h.2.1, h.2.2.1, h.2.2.2⟩
  · intro s name lo hi f hname
    unfold StateBuilder.apply_calibration
    rw [hname, updateFinger_same]

theorem c1_invariant_amended_witness :
    fingerOfName? "ring".data = some Finger.ring ∧
    ((StateBuilder.init.apply_calibration "ring".data 3 100).fingers
        Finger.ring).calibrated = decide ((3 : Int) < 100) :=
  ⟨by decide,
   c1_invariant_amended.2 StateBuilder.init "ring".data 3 100 Finger.ring (by decide)⟩

/-- C1 counterexample: after `apply_calibration("thumb", 0, 100)` (which
sets `calibrated = True`) followed by `set_calibrating(True)` (which
resets the window to min = 4095, max = 0 without clearing `calibrated`),
the snapshot shows a calibrated finger whose `raw_max` is not greater
than its `raw_min`. -/
theorem c1_counterexample :
    ¬ ∀ (ops : List BuilderOp) (f : Finger),
      0 ≤ (((runBuilderOps ops).snapshot 0).fingers f).position ∧
      (((runBuilderOps ops).snapshot 0).fingers f).position ≤ 1 ∧
      0 ≤ (((runBuilderOps ops).snapshot 0).fingers f).setpoint ∧
      (((runBuilderOps ops).snapshot 0).fingers f).setpoint ≤ 1 ∧
      ((((runBuilderOps ops).snapshot 0).fingers f).calibrated = true →
        (((runBuilderOps ops).snapshot 0).fingers f).raw_min <
          (((runBuilderOps ops).snapshot 0).fingers f).raw_max) := by
  intro h
  have hthumb := (h [BuilderOp.apply_calibration "thumb".data 0 100,
    BuilderOp.set_calibrating true] Finger.thumb).2.2.2.2
  revert hthumb
  decide

/-! ### StateBuilder: C6 -/

theorem floorRat_lt (z : Int) (r : ℚ) : Rat.floor r < z ↔ r < (z : ℚ) := by
  constructor
  · intro h
    by_contra hc
    push_neg at hc
    exact absurd (Rat.le_floor.mpr hc) (not_le.mpr h)
  · intro h
    by_contra hc
    push_neg at hc
    exact absurd (Rat.le_floor.mp hc) (not_le.mpr h)

theorem rawMinUpd_spec (rv : ℚ) (d : FingerData) :
    (rawMinUpd rv d).raw_min = min d.raw_min (Rat.floor rv) ∧
    (rawMinUpd rv d).raw_max = d.raw_max ∧
    (rawMinUpd rv d).calibrated = d.calibrated ∧
    (rawMinUpd rv d).invert = d.invert ∧
    (rawMinUpd rv d).position = d.position ∧
    (rawMinUpd rv d).setpoint = d.setpoint ∧
    (rawMinUpd rv d).enabled = d.enabled := by
  unfold rawMinUpd
  split_ifs with h
  · refine ⟨?_, rfl, rfl, rfl, rfl, rfl, rfl⟩
    dsimp only
    rw [min_eq_right (le_of_lt ((floorRat_lt _ _).mpr h))]
  · refine ⟨?_, rfl, rfl, rfl, rfl, rfl, rfl⟩
    rw [min_eq_left (Rat.le_floor.mpr (not_lt.mp h))]

theorem rawMaxUpd_spec (rv : ℚ) (d : FingerData) :
    (rawMaxUpd rv d).raw_max = max d.raw_max (Rat.floor rv) ∧
    (rawMaxUpd rv d).raw_min = d.raw_min ∧
    (rawMaxUpd rv d).calibrated = d.calibrated ∧
    (rawMaxUpd rv d).invert = d.invert ∧
    (rawMaxUpd rv d).position = d.position ∧
    (rawMaxUpd rv d).setpoint = d.setpoint ∧
    (rawMaxUpd rv d).enabled = d.enabled := by
  unfold rawMaxUpd
  split_ifs with h
  · refine ⟨?_, rfl, rfl, rfl, rfl, rfl, rfl⟩
    dsimp only
    rw [max_eq_right (Rat.le_floor.mpr (le_of_lt h))]
  · refine ⟨?_, rfl, rfl, rfl, rfl, rfl, rfl⟩
    have hlt : Rat.floor rv < d.raw_max + 1 := by
      rw [floorRat_lt]
      push_cast
      have := not_lt.mp h
      linarith
    rw [max_eq_left (by omega)]

theorem rawPosFinish_spec (rv : ℚ) (d : FingerData) :
    (rawPosFinish rv d).raw_min = d.raw_min ∧
    (rawPosFinish rv d).raw_max = d.raw_max ∧
    (rawPosFinish rv d).calibrated = d.calibrated ∧
    (rawPosFinish rv d).invert = d.invert ∧
    (rawPosFinish rv d).setpoint = d.setpoint ∧
    (rawPosFinish rv d).enabled = d.enabled ∧
    (rawPosFinish rv d).position =
      (if d.calibrated = true ∧ d.raw_min < d.raw_max then
        (if d.invert = true then
          1 - clamp01 ((rv - (d.raw_min : ℚ)) / ((d.raw_max : ℚ) - (d.raw_min : ℚ)))
        else clamp01 ((rv - (d.raw_min : ℚ)) / ((d.raw_max : ℚ) - (d.raw_min : ℚ))))
      else rv / (RAW_MAX : ℚ)) := by
  unfold rawPosFinish
  split_ifs <;> exact ⟨rfl, rfl, rfl, rfl, rfl, rfl, rfl⟩

/-- Full characterisation of the per-finger raw update: fields other than
the window and position are untouched; with calibration mode on, the
window moves to `min old ⌊rv⌋` / `max old ⌊rv⌋` (the *truncated* clamped
value); the position uses the updated window. -/
theorem rawPosData_spec (c : Bool) (d : FingerData) (rv : ℚ) :
    ((rawPosData c d rv).calibrated = d.calibrated ∧
     (rawPosData c d rv).invert = d.invert ∧
     (rawPosData c d rv).setpoint = d.setpoint ∧
     (rawPosData c d rv).enabled = d.enabled) ∧
    (c = true →
      (rawPosData c d rv).raw_min = min d.raw_min (Rat.floor rv) ∧
      (rawPosData c d rv).raw_max = max d.raw_max (Rat.floor rv)) ∧
    (c = false →
      (rawPosData c d rv).raw_min = d.raw_min ∧
      (rawPosData c d rv).raw_max = d.raw_max) ∧
    (rawPosData c d rv).position =
      (if d.calibrated = true ∧
          (rawPosData c d rv).raw_min < (rawPosData c d rv).raw_max then
        (if d.invert = true then
          1 - clamp01 ((rv - ((rawPosData c d rv).raw_min : ℚ)) /
            (((rawPosData c d rv).raw_max : ℚ) - ((rawPosData c d rv).raw_min : ℚ)))
        else clamp01 ((rv - ((rawPosData c d rv).raw_min : ℚ)) /
            (((rawPosData c d rv).raw_max : ℚ) - ((rawPosData c d rv).raw_min : ℚ))))
      else rv / (RAW_MAX : ℚ)) := by
  cases c with
  | false =>
    have hf := rawPosFinish_spec rv d
    unfold rawPosData
    simp only [Bool.false_eq_true, if_false]
    refine ⟨⟨hf.2.2.1, hf.2.2.2.1, hf.2.2.2.2.1, hf.2.2.2.2.2.1⟩, ?_, ?_, ?_⟩
    · intro h
      cases h
    · intro _
      exact ⟨hf.1, hf.2.1⟩
    · rw [hf.2.2.2.2.2.2, hf.1, hf.2.1]
  | true =>
    have hmin := rawMinUpd_spec rv d
    have hmax := rawMaxUpd_spec rv (rawMinUpd rv d)
    have hf := rawPosFinish_spec rv (rawMaxUpd rv (rawMinUpd rv d))
    unfold rawPosData
    simp only [if_true]
    have hrmin : (rawMaxUpd rv (rawMinUpd rv d)).raw_min = min d.raw_min (Rat.floor rv) := by
      rw [hmax.2.1, hmin.1]
    have hrmax : (rawMaxUpd rv (rawMinUpd rv d)).raw_max = max d.raw_max (Rat.floor rv) := by
      rw [hmax.1, hmin.2.1]
    have hcal : (rawMaxUpd rv (rawMinUpd rv d)).calibrated = d.calibrated := by
      rw [hmax.2.2.1, hmin.2.2.1]
    have hinv : (rawMaxUpd rv (rawMinUpd rv d)).invert = d.invert := by
      rw [hmax.2.2.2.1, hmin.2.2.2.1]
    refine ⟨⟨?_, ?_, ?_, ?_⟩, ?_, ?_, ?_⟩
    · rw [hf.2.2.1, hcal]
    · rw [hf.2.2.2.1, hinv]
    · rw [hf.2.2.2.2.1, hmax.2.2.2.2.2.1, hmin.2.2.2.2.2.1]
    · rw [hf.2.2.2.2.2.1, hmax.2.2.2.2.2.2, hmin.2.2.2.2.2.2]
    · intro _
      exact ⟨by rw [hf.1, hrmin], by rw [hf.2.1, hrmax]⟩
    · intro h
      cases h
    · rw [hf.2.2.2.2.2.2, hf.1, hf.2.1, hcal, hinv]

theorem rawPosStep_fingers_ne (st : StateBuilder) (f1 : Finger) (v : ℚ) (f : Finger)
    (h : f ≠ f1) : (rawPosStep st (f1, v)).fingers f = st.fingers f := by
  unfold rawPosStep
  exact updateFinger_ne _ _ _ _ h

theorem rawPosStep_fingers_same (st : StateBuilder) (f : Finger) (v : ℚ) :
    (rawPosStep st (f, v)).fingers f =
      rawPosData st.calibrating (st.fingers f) (max 0 (min (RAW_MAX : ℚ) v)) := by
  unfold rawPosStep
  exact updateFinger_same _ _ _

theorem rawPosStep_calibrating (st : StateBuilder) (fv : Finger × ℚ) :
    (rawPosStep st fv).calibrating = st.calibrating := rfl

/-- C6 (amended): a raw-positions update clamps each incoming value to
`[0, RAW_MAX]`; when calibration mode is active the finger's window is
updated with the *integer truncation* of the clamped value
(`raw_min := min raw_min ⌊v⌋`, `raw_max := max raw_max ⌊v⌋`, so the window
is only guaranteed to contain `⌊v⌋`, not `v` itself); the stored position
is `(v − raw_min)/(raw_max − raw_min)` clamped to `[0,1]` (inverted when
the invert flag is set) against the *updated* window when the finger is
calibrated and `raw_max > raw_min`, and `v / RAW_MAX` otherwise; other
fields are untouched. -/
theorem c6_raw_positions_amended :
    (∀ (s : StateBuilder) (vs : List ℚ) (f : Finger), vs.length = 5 →
      (s.applyRawPositions vs).fingers f =
        rawPosData s.calibrating (s.fingers f)
          (max 0 (min (RAW_MAX : ℚ) (vs.getD (fingerIndex f) 0)))) ∧
    (∀ (c : Bool) (d : FingerData) (rv : ℚ),
      ((rawPosData c d rv).calibrated = d.calibrated ∧
       (rawPosData c d rv).invert = d.invert ∧
       (rawPosData c d rv).setpoint = d.setpoint ∧
       (rawPosData c d rv).enabled = d.enabled) ∧
      (c = true →
        (rawPosData c d rv).raw_min = min d.raw_min (Rat.floor rv) ∧
        (rawPosData c d rv).raw_max = max d.raw_max (Rat.floor rv)) ∧
      (c = false →
        (rawPosData c d rv).raw_min = d.raw_min ∧
        (rawPosData c d rv).raw_max = d.raw_max) ∧
      (rawPosData c d rv).position =
        (if d.calibrated = true ∧
            (rawPosData c d rv).raw_min < (rawPosData c d rv).raw_max then
          (if d.invert = true then
            1 - clamp01 ((rv - ((rawPosData c d rv).raw_min : ℚ)) /
              (((rawPosData c d rv).raw_max : ℚ) - ((rawPosData c d rv).raw_min : ℚ)))
          else clamp01 ((rv - ((rawPosData c d rv).raw_min : ℚ)) /
              (((rawPosData c d rv).raw_max : ℚ) - ((rawPosData c d rv).raw_min : ℚ))))
        else rv / (RAW_MAX : ℚ))) := by
  refine ⟨?_, rawPosData_spec⟩
  intro s vs f hlen
  rcases vs with _ | ⟨v0, _ | ⟨v1, _ | ⟨v2, _ | ⟨v3, _ | ⟨v4, vrest⟩⟩⟩⟩⟩ <;>
    simp only [List.length] at hlen <;> try omega
  have hrest : vrest = [] := List.length_eq_zero.mp (by omega)
  subst hrest
  show (rawPosStep (rawPosStep (rawPosStep (rawPosStep (rawPosStep s
    (Finger.thumb, v0)) (Finger.index, v1)) (Finger.middle, v2))
    (Finger.ring, v3)) (Finger.pinky, v4)).fingers f = _
  cases f
  case thumb =>
    rw [rawPosStep_fingers_ne _ Finger.pinky v4 Finger.thumb (by decide),
      rawPosStep_fingers_ne _ Finger.ring v3 Finger.thumb (by decide),
      rawPosStep_fingers_ne _ Finger.middle v2 Finger.thumb (by decide),
      rawPosStep_fingers_ne _ Finger.index v1 Finger.thumb (by decide),
      rawPosStep_fingers_same]
    rfl
  case index =>
    rw [rawPosStep_fingers_ne _ Finger.pinky v4 Finger.index (by decide),
      rawPosStep_fingers_ne _ Finger.ring v3 Finger.index (by decide),
      rawPosStep_fingers_ne _ Finger.middle v2 Finger.index (by decide),
      rawPosStep_fingers_same, rawPosStep_calibrating,
      rawPosStep_fingers_ne _ Finger.thumb v0 Finger.index (by decide)]
    rfl
  case middle =>
    rw [rawPosStep_fingers_ne _ Finger.pinky v4 Finger.middle (by decide),
      rawPosStep_fingers_ne _ Finger.ring v3 Finger.middle (by decide),
      rawPosStep_fingers_same, rawPosStep_calibrating, rawPosStep_calibrating,
      rawPosStep_fingers_ne _ Finger.index v1 Finger.middle (by decide),
      rawPosStep_fingers_ne _ Finger.thumb v0 Finger.middle (by decide)]
    rfl
  case ring =>
    rw [rawPosStep_fingers_ne _ Finger.pinky v4 Finger.ring (by decide),
      rawPosStep_fingers_same, rawPosStep_calibrating, rawPosStep_calibrating,
      rawPosStep_calibrating,
      rawPosStep_fingers_ne _ Finger.middle v2 Finger.ring (by decide),
      rawPosStep_fingers_ne _ Finger.index v1 Finger.ring (by decide),
      rawPosStep_fingers_ne _ Finger.thumb v0 Finger.ring (by decide)]
    rfl
  case pinky =>
    rw [rawPosStep_fingers_same, rawPosStep_calibrating, rawPosStep_calibrating,
      rawPosStep_calibrating, rawPosStep_calibrating,
      rawPosStep_fingers_ne _ Finger.ring v3 Finger.pinky (by decide),
      rawPosStep_fingers_ne _ Finger.middle v2 Finger.pinky (by decide),
      rawPosStep_fingers_ne _ Finger.index v1 Finger.pinky (by decide),
      rawPosStep_fingers_ne _ Finger.thumb v0 Finger.pinky (by decide)]
    rfl

theorem c6_raw_positions_amended_witness :
    (([(21 : ℚ)/2, 0, 0, 0, 0] : List ℚ).length = 5) ∧
    ((StateBuilder.init.set_calibrating true).applyRawPositions
        [(21 : ℚ)/2, 0, 0, 0, 0]).fingers Finger.thumb =
      rawPosData (StateBuilder.init.set_calibrating true).calibrating
        ((StateBuilder.init.set_calibrating true).fingers Finger.thumb)
        (max 0 (min (RAW_MAX : ℚ) (([(21 : ℚ)/2, 0, 0, 0, 0]).getD
          (fingerIndex Finger.thumb) 0))) :=
  ⟨rfl, c6_raw_positions_amended.1 (StateBuilder.init.set_calibrating true)
    [(21 : ℚ)/2, 0, 0, 0, 0] Finger.thumb rfl⟩

/-- C6 counterexample: with calibration active, the raw value 10.5
(clamped to itself) leaves thumb's window at `[10, 10]` because the code
stores `int(raw_value)`; the window does not include the clamped value,
refuting "widened to include the clamped value". -/
theorem c6_counterexample :
    ¬ ((21 / 2 : ℚ) ≤
        (((((StateBuilder.init.set_calibrating true).applyRawPositions
          [(21 : ℚ)/2, 0, 0, 0, 0]).fingers Finger.thumb).raw_max : Int) : ℚ)) := by
  decide

/-! ### StatusMonitor: C2, C5 -/

theorem prefix_of_append_left {α : Type _} {p u v : List α} (h : p <+: u ++ v)
    (hl : p.length ≤ u.length) : p <+: u := by
  rw [List.prefix_iff_eq_take] at h
  rw [List.take_append_of_le_length hl] at h
  exact h ▸ List.take_prefix _ u

theorem no_early_end (payload X : List Nat) (hp : ¬ ESC_STATUS_END <:+: payload)
    (i : Nat) (hi : i < payload.length) :
    ¬ ESC_STATUS_END <+: (payload ++ ESC_STATUS_END ++ X).drop i := by
  intro hpre
  rw [List.append_assoc, List.drop_append_of_le_length (le_of_lt hi)] at hpre
  by_cases hlen : 2 ≤ (payload.drop i).length
  · have h1 : ESC_STATUS_END <+: payload.drop i :=
      prefix_of_append_left hpre hlen
    exact hp (h1.isInfix.trans (List.drop_suffix i payload).isInfix)
  · rw [List.length_drop] at hlen
    have h1 : (payload.drop i).length = 1 := by
      rw [List.length_drop]
      omega
    obtain ⟨x, hx⟩ := List.length_eq_one.mp h1
    rw [hx] at hpre
    simp only [ESC_STATUS_END, List.cons_append, List.nil_append] at hpre
    rcases List.cons_prefix_cons.mp hpre with ⟨_, h3⟩
    rcases List.cons_prefix_cons.mp h3 with ⟨h4, _⟩
    exact absurd h4 (by decide)

theorem findSub_end_after (payload X : List Nat) (hp : ¬ ESC_STATUS_END <:+: payload) :
    findSub ESC_STATUS_END (payload ++ ESC_STATUS_END ++ X) = some payload.length := by
  apply findSub_eq_some_first
  · rw [List.append_assoc, List.drop_left]
    exact List.prefix_append _ _
  · intro i hi
    exact no_early_end payload X hp i hi

theorem tryExtract_frame {σ : Type _} (parse : List Nat → Option σ) (payload X : List Nat)
    (hp : ¬ ESC_STATUS_END <:+: payload) :
    tryExtractStatus parse (statusFrame payload ++ X) = (parse payload, X) := by
  unfold tryExtractStatus
  have hstart : findSub ESC_STATUS_START (statusFrame payload ++ X) = some 0 := by
    apply findSub_head
    unfold statusFrame
    simp only [List.append_assoc]
    exact List.prefix_append _ _
  rw [hstart]
  dsimp only
  have hdrop : (statusFrame payload ++ X).drop (0 + ESC_STATUS_START.length) =
      payload ++ ESC_STATUS_END ++ X := by
    unfold statusFrame
    simp only [Nat.zero_add, List.append_assoc]
    rw [List.drop_left]
  rw [hdrop, findSub_end_after payload X hp]
  dsimp only
  have htake : (payload ++ ESC_STATUS_END ++ X).take payload.length = payload := by
    rw [List.append_assoc, List.take_left]
  have hcount : 0 + ESC_STATUS_START.length + payload.length + ESC_STATUS_END.length =
      (statusFrame payload).length := by
    simp [statusFrame, List.length_append]
    omega
  rw [htake, hcount, List.drop_left]

theorem tryExtract_nil {σ : Type _} (parse : List Nat → Option σ) :
    tryExtractStatus parse ([] : List Nat) = (none, []) := by
  unfold tryExtractStatus
  have h : findSub ESC_STATUS_START ([] : List Nat) = none := by
    simp [findSub, ESC_STATUS_START]
  rw [h]

theorem tryExtract_incomplete {σ : Type _} (parse : List Nat → Option σ)
    (payload p : List Nat) (hp : ¬ ESC_STATUS_END <:+: payload)
    (hpre : p <+: statusFrame payload) (hne : p ≠ statusFrame payload) :
    tryExtractStatus parse p = (none, p) := by
  have hS : ESC_STATUS_START.length = 19 := rfl
  by_cases hlen : p.length < ESC_STATUS_START.length
  · have hstart : findSub ESC_STATUS_START p = none := by
      apply findSub_eq_none
      intro i hcontra
      have hle := hcontra.length_le
      rw [List.length_drop] at hle
      omega
    unfold tryExtractStatus
    rw [hstart]
  · push_neg at hlen
    have hsf : ESC_STATUS_START <+: statusFrame payload := by
      unfold statusFrame
      simp only [List.append_assoc]
      exact List.prefix_append _ _
    have hsp : ESC_STATUS_START <+: p := by
      rcases List.prefix_or_prefix_of_prefix hsf hpre with h | h
      · exact h
      · exact (h.eq_of_length (le_antisymm h.length_le hlen)) ▸ List.prefix_rfl
    obtain ⟨q, hq⟩ := hsp
    have hq2 : q <+: payload ++ ESC_STATUS_END := by
      rcases hpre with ⟨t, ht⟩
      refine ⟨t, ?_⟩
      rw [← hq] at ht
      unfold statusFrame at ht
      rw [List.append_assoc] at ht
      rw [List.append_assoc] at ht
      exact List.append_cancel_left ht
    have hqne : q ≠ payload ++ ESC_STATUS_END := by
      intro he
      apply hne
      rw [← hq, he]
      unfold statusFrame
      simp [List.append_assoc]
    have hqlen : q.length ≤ payload.length + 1 := by
      have h1 := hq2.length_le
      rw [List.length_append] at h1
      have hqlt : q.length < payload.length + ESC_STATUS_END.length := by
        rcases lt_or_eq_of_le h1 with h | h
        · exact h
        · exact absurd (hq2.eq_of_length (by rw [List.length_append, h])) hqne
      have hE : ESC_STATUS_END.length = 2 := rfl
      omega
    have hend : findSub ESC_STATUS_END (p.drop (0 + ESC_STATUS_START.length)) = none := by
      have hpq : p.drop (0 + ESC_STATUS_START.length) = q := by
        rw [Nat.zero_add, ← hq, List.drop_left]
      rw [hpq]
      apply findSub_eq_none
      intro i hcontra
      have hlen2 : 2 ≤ (q.drop i).length := hcontra.length_le
      rw [List.length_drop] at hlen2
      have hi : i < payload.length := by omega
      have hmono := hq2.drop i
      have hfull : ESC_STATUS_END <+: (payload ++ ESC_STATUS_END).drop i :=
        hcontra.trans hmono
      have hX := no_early_end payload [] hp i hi
      rw [List.append_nil] at hX
      exact hX hfull
    unfold tryExtractStatus
    rw [findSub_head _ _ ⟨q, hq⟩]
    dsimp only
    rw [hend]

theorem extractLoop_succ {σ : Type _} (parse : List Nat → Option σ)
    (fuel : Nat) (buf : List Nat) :
    extractLoop parse (fuel + 1) buf =
      (match tryExtractStatus parse buf with
       | (none, buf1) => ([], buf1)
       | (some s, buf1) =>
         match extractLoop parse fuel buf1 with
         | (out, buf2) => (s :: out, buf2)) := rfl

theorem trimBuffer_eq (buf : List Nat)
    (h : buf.length ≤ STATUS_MONITOR_MAX_BUFFER_SIZE) : trimBuffer buf = buf := by
  unfold trimBuffer
  rw [if_pos h]

theorem statusFrame_ne_nil (payload : List Nat) : statusFrame payload ≠ [] := by
  unfold statusFrame ESC_STATUS_START
  simp

theorem processChunk_incomplete {σ : Type _} (parse : List Nat → Option σ)
    (payload p c : List Nat) (hp : ¬ ESC_STATUS_END <:+: payload)
    (hpre : p ++ c <+: statusFrame payload) (hne : p ++ c ≠ statusFrame payload)
    (hsize : (statusFrame payload).length ≤ STATUS_MONITOR_MAX_BUFFER_SIZE) :
    processChunk parse p c = ([], p ++ c) := by
  unfold processChunk
  rw [trimBuffer_eq _ (le_trans hpre.length_le hsize)]
  rw [extractLoop_succ]
  rw [tryExtract_incomplete parse payload _ hp hpre hne]

theorem processChunk_complete {σ : Type _} (parse : List Nat → Option σ)
    (payload p c : List Nat) (st : σ) (hp : ¬ ESC_STATUS_END <:+: payload)
    (heq : p ++ c = statusFrame payload) (hs : parse payload = some st)
    (hsize : (statusFrame payload).length ≤ STATUS_MONITOR_MAX_BUFFER_SIZE) :
    processChunk parse p c = ([st], []) := by
  unfold processChunk
  rw [heq, trimBuffer_eq _ hsize]
  have h1 : tryExtractStatus parse (statusFrame payload) = (some st, []) := by
    have h := tryExtract_frame parse payload [] hp
    rw [List.append_nil] at h
    rw [h, hs]
  have hge : 19 ≤ (statusFrame payload).length := by
    have h19 : ESC_STATUS_START.length ≤ (statusFrame payload).length := by
      unfold statusFrame
      simp only [List.append_assoc]
      exact (List.prefix_append _ _).length_le
    simpa using h19
  obtain ⟨L2, hL⟩ : ∃ L2, (statusFrame payload).length = L2 + 1 :=
    ⟨(statusFrame payload).length - 1, by omega⟩
  rw [extractLoop_succ, h1]
  dsimp only
  rw [hL, extractLoop_succ, tryExtract_nil]

theorem processChunks_all_empty {σ : Type _} (parse : List Nat → Option σ)
    (chunks : List (List Nat)) (h : ∀ c ∈ chunks, c = []) (buf : List Nat) :
    processChunks parse buf chunks = ([], buf) := by
  induction chunks with
  | nil => rfl
  | cons c rest ih =>
    have hc : c = [] := h c (List.mem_cons_self c rest)
    unfold processChunks
    rw [if_pos hc]
    exact ih (fun x hx => h x (List.mem_cons_of_mem c hx))

theorem processChunks_frame {σ : Type _} (parse : List Nat → Option σ)
    (payload : List Nat) (st : σ) (hp : ¬ ESC_STATUS_END <:+: payload)
    (hs : parse payload = some st)
    (hsize : (statusFrame payload).length ≤ STATUS_MONITOR_MAX_BUFFER_SIZE)
    (chunks : List (List Nat)) :
    ∀ p : List Nat, p <+: statusFrame payload → p ≠ statusFrame payload →
      p ++ chunks.flatten = statusFrame payload →
      processChunks parse p chunks = ([st], []) := by
  induction chunks with
  | nil =>
    intro p _ hne hjoin
    rw [List.flatten_nil, List.append_nil] at hjoin
    exact absurd hjoin hne
  | cons c rest ih =>
    intro p hpre hne hjoin
    rw [List.flatten_cons, ← List.append_assoc] at hjoin
    by_cases hc : c = []
    · subst hc
      rw [List.append_nil] at hjoin
      unfold processChunks
      rw [if_pos rfl]
      exact ih p hpre hne hjoin
    · unfold processChunks
      rw [if_neg hc]
      by_cases hfull : p ++ c = statusFrame payload
      · rw [processChunk_complete parse payload p c st hp hfull hs hsize]
        dsimp only
        have hrest : rest.flatten = [] := by
          rw [hfull] at hjoin
          have h2 : statusFrame payload ++ rest.flatten =
              statusFrame payload ++ [] := by
            rw [List.append_nil]
            exact hjoin
          exact List.append_cancel_left h2
        rw [processChunks_all_empty parse rest
          (List.flatten_eq_nil_iff.mp hrest) []]
        rfl
      · have hpre2 : p ++ c <+: statusFrame payload := ⟨rest.flatten, hjoin⟩
        rw [processChunk_incomplete parse payload p c hp hpre2 hfull hsize]
        dsimp only
        rw [ih (p ++ c) hpre2 hfull hjoin]
        rfl

/-- C5: delivering a complete status frame (start marker, payload that
contains no occurrence of the end marker and parses to `st`, end marker,
total size within the 64 KiB monitor buffer) across any partition into
chunks emits exactly the one status `st` and empties the buffer — the
same outcome as a single-chunk delivery. -/
theorem c5_chunk_partition {σ : Type _} (parse : List Nat → Option σ)
    (payload : List Nat) (st : σ) (hp : ¬ ESC_STATUS_END <:+: payload)
    (hs : parse payload = some st)
    (hsize : (statusFrame payload).length ≤ STATUS_MONITOR_MAX_BUFFER_SIZE)
    (chunks : List (List Nat)) (hjoin : chunks.flatten = statusFrame payload) :
    processChunks parse [] chunks = ([st], []) ∧
    processChunks parse [] [statusFrame payload] = ([st], []) := by
  constructor
  · exact processChunks_frame parse payload st hp hs hsize chunks []
      List.nil_prefix (fun h => statusFrame_ne_nil payload h.symm)
      (by rw [List.nil_append, hjoin])
  · exact processChunks_frame parse payload st hp hs hsize [statusFrame payload] []
      List.nil_prefix (fun h => statusFrame_ne_nil payload h.symm)
      (by simp)

theorem c5_chunk_partition_witness :
    (¬ ESC_STATUS_END <:+: toyStatusOk) ∧
    toyParse toyStatusOk = some 1 ∧
    (statusFrame toyStatusOk).length ≤ STATUS_MONITOR_MAX_BUFFER_SIZE ∧
    ([(statusFrame toyStatusOk).take 5,
      (statusFrame toyStatusOk).drop 5] : List (List Nat)).flatten =
        statusFrame toyStatusOk ∧
    processChunks toyParse [] [(statusFrame toyStatusOk).take 5,
      (statusFrame toyStatusOk).drop 5] = ([1], []) :=
  ⟨by decide, rfl, by decide, by decide,
   (c5_chunk_partition toyParse toyStatusOk 1 (by decide) rfl (by decide)
     [(statusFrame toyStatusOk).take 5, (statusFrame toyStatusOk).drop 5]
     (by decide)).1⟩

/-- C2 (code behaviour at the failing input): a chunk holding an invalid
frame followed by a complete valid frame.  The invalid payload's bytes
*are* consumed and no status is emitted for it, but the extraction loop
treats the parse failure as "no frame found" and stops the pass, so the
following valid frame is left unprocessed in the buffer instead of being
extracted and emitted in the same pass. -/
theorem c2_invalid_then_valid {σ : Type _} (parse : List Nat → Option σ)
    (bad good : List Nat) (st : σ)
    (hbad : ¬ ESC_STATUS_END <:+: bad) (hgood : ¬ ESC_STATUS_END <:+: good)
    (hpb : parse bad = none) (hpg : parse good = some st)
    (hsize : (statusFrame bad ++ statusFrame good).length ≤
      STATUS_MONITOR_MAX_BUFFER_SIZE) :
    processChunk parse [] (statusFrame bad ++ statusFrame good) =
      ([], statusFrame good) ∧
    tryExtractStatus parse (statusFrame good) = (some st, []) := by
  constructor
  · unfold processChunk
    rw [List.nil_append, trimBuffer_eq _ hsize]
    rw [extractLoop_succ]
    rw [tryExtract_frame parse bad (statusFrame good) hbad, hpb]
  · have h := tryExtract_frame parse good [] hgood
    rw [List.append_nil] at h
    rw [h, hpg]

theorem c2_invalid_then_valid_witness :
    (¬ ESC_STATUS_END <:+: toyStatusBad) ∧
    toyParse toyStatusBad = none ∧
    toyParse toyStatusOk = some 1 ∧
    (statusFrame toyStatusBad ++ statusFrame toyStatusOk).length ≤
      STATUS_MONITOR_MAX_BUFFER_SIZE ∧
    (processChunk toyParse []
        (statusFrame toyStatusBad ++ statusFrame toyStatusOk) =
      ([], statusFrame toyStatusOk) ∧
     tryExtractStatus toyParse (statusFrame toyStatusOk) = (some 1, [])) :=
  ⟨by decide, by decide, rfl, by decide,
   c2_invalid_then_valid toyParse toyStatusBad toyStatusOk 1 (by decide)
     (by decide) (by decide) rfl (by decide)⟩

end HapticSDK
